import Mathlib

/-!
Shallow embedding of the rsynth sample-generation engine
(src/audio/waves.rs, src/audio/instrument.rs, src/input.rs).

Finite f32 values are modelled as exact rationals; `none : F` marks the
IEEE non-finite results (NaN) that the envelope code can produce through
its `lt!` macro when it divides by a zero ramp duration.  Every concrete
input appearing in the theorems below is dyadic and every arithmetic step
on it is exact in f32, so the rational model agrees with the f32 code on
those inputs.
-/

namespace RSynth

/-- Finite f32 values as rationals; `none` models NaN.  NaN is the only
non-finite value reachable in the envelope code: its single division site
divides a value already clamped into `[0, b]` by `b`, so a zero divisor
always gives IEEE `0.0/0.0 = NaN`. -/
abbrev F := Option ℚ

/-- f32 addition on finite values; NaN propagates. -/
def fadd : F → F → F
  | some a, some b => some (a + b)
  | _, _ => none

/-- f32 subtraction on finite values; NaN propagates. -/
def fsub : F → F → F
  | some a, some b => some (a - b)
  | _, _ => none

/-- f32 multiplication on finite values; NaN propagates (IEEE `0 * NaN = NaN`). -/
def fmul : F → F → F
  | some a, some b => some (a * b)
  | _, _ => none

/-- f32 division on finite values; NaN propagates and a zero divisor gives
a non-finite result.  At the only division site of the source the numerator
has been clamped into `[0, b]`, so a zero divisor is exactly `0.0/0.0 = NaN`. -/
def fdiv : F → F → F
  | some a, some b => if b = 0 then none else some (a / b)
  | _, _ => none

/-- Rust `f32::clamp(lo, hi)`.  The source always calls it with `lo = 0.0`
and `hi` a ramp duration; Rust panics when `lo > hi`, and the theorems that
touch that regime carry a nonnegativity hypothesis on the duration.  A NaN
input propagates. -/
def fclamp (x : F) (lo hi : ℚ) : F := x.map fun v => max lo (min v hi)

/-- Body of the `lerp!` macro in `Envelope::sample`: `a*(1.0-t) + b*t`. -/
def lerp (t a b : F) : F := fadd (fmul a (fsub (some 1) t)) (fmul b t)

/-- Body of the `lt!` macro in `Envelope::sample`: `a.clamp(0.0, b) / b`. -/
def ltFrac (a : F) (b : ℚ) : F := fdiv (fclamp a 0 b) (some b)

/-- Model of `Envelope(f32, f32, f32, f32)` (src/audio/waves.rs line 139).
Fields `p0..p3` model the tuple fields `.0` (attack time), `.1` (release
time), `.2` (sustain level), `.3` (release decay time). -/
structure Envelope where
  p0 : ℚ
  p1 : ℚ
  p2 : ℚ
  p3 : ℚ
deriving DecidableEq

/-- Model of `Envelope::sample(t, t0, t1)`, src/audio/waves.rs lines 144-153. -/
def Envelope.sample (e : Envelope) (t t0 : ℚ) (t1 : Option ℚ) : F :=
  match t1 with
  | some t1' => lerp (ltFrac (some (t - t1')) e.p3) (some e.p2) (some 0)
  | none =>
      lerp (ltFrac (some (t - t0 - e.p0)) e.p1)
        (lerp (ltFrac (some (t - t0)) e.p0) (some 0) (some 1))
        (some e.p2)

lemma ltFrac_mem (x b : ℚ) (hb : 0 < b) :
    ltFrac (some x) b = some (max 0 (min x b) / b) ∧
    0 ≤ max 0 (min x b) / b ∧ max 0 (min x b) / b ≤ 1 := by
  refine ⟨by simp [ltFrac, fclamp, fdiv, hb.ne'], ?_, ?_⟩
  · exact div_nonneg (le_max_left _ _) hb.le
  · rw [div_le_one hb]
    exact max_le hb.le (min_le_right x b)

/-- Claim C1 (counterexample): for the envelope `Envelope(1.0, 1.0, 0.5, 1.0)`
with `release = None`, `sample(1, 0, None)` returns `1`, which lies outside
the claimed range `[0, sustain_level] = [0, 1/2]`. -/
theorem C1_counterexample :
    (Envelope.mk 1 1 (1/2) 1).sample 1 0 none = some 1 ∧ ((1:ℚ)/2) < 1 := by
  constructor
  · norm_num [Envelope.sample, lerp, ltFrac, fclamp, fdiv, fadd, fmul, fsub,
      max_def, min_def]
  · norm_num

/-- Claim C1 (amended): for every envelope with positive ramp durations and
nonnegative sustain level, `Envelope.sample` returns a finite value in
`[0, max 1 sustain_level]` while the note is held (`release = None`) and in
`[0, sustain_level]` once released (`release = Some t1`). -/
theorem C1_envelope_range (e : Envelope) (t t0 : ℚ) (t1 : Option ℚ)
    (h0 : 0 < e.p0) (h1 : 0 < e.p1) (h2 : 0 ≤ e.p2) (h3 : 0 < e.p3) :
    ∃ v, e.sample t t0 t1 = some v ∧ 0 ≤ v ∧
      v ≤ (match t1 with
           | none => max 1 e.p2
           | some _ => e.p2) := by
  cases t1 with
  | some t1' =>
      obtain ⟨hu, hu0, hu1⟩ := ltFrac_mem (t - t1') e.p3 h3
      set u := max 0 (min (t - t1') e.p3) / e.p3 with hudef
      refine ⟨e.p2 * (1 - u) + 0 * u, ?_, ?_, ?_⟩
      · simp [Envelope.sample, hu, lerp, fmul, fsub, fadd]
      · nlinarith
      · nlinarith
  | none =>
      obtain ⟨hu, hu0, hu1⟩ := ltFrac_mem (t - t0) e.p0 h0
      obtain ⟨hw, hw0, hw1⟩ := ltFrac_mem (t - t0 - e.p0) e.p1 h1
      set u := max 0 (min (t - t0) e.p0) / e.p0 with hudef
      set w := max 0 (min (t - t0 - e.p0) e.p1) / e.p1 with hwdef
      refine ⟨(0 * (1 - u) + 1 * u) * (1 - w) + e.p2 * w, ?_, ?_, ?_⟩
      · simp [Envelope.sample, hu, hw, lerp, fmul, fsub, fadd]
      · nlinarith
      · have hb : (0 * (1 - u) + 1 * u) * (1 - w) + e.p2 * w ≤ max 1 e.p2 := by
          have hm1 : (1:ℚ) ≤ max 1 e.p2 := le_max_left _ _
          have hm2 : e.p2 ≤ max 1 e.p2 := le_max_right _ _
          nlinarith
        simpa using hb

/-- Witness for `C1_envelope_range` at `Envelope(1,1,1/2,1)`, `t = 2`,
`t0 = 0`, `release = None`. -/
theorem C1_envelope_range_witness :
    (0:ℚ) < 1 ∧ (0:ℚ) ≤ 1/2 ∧
    ∃ v, (Envelope.mk 1 1 (1/2) 1).sample 2 0 none = some v ∧
      0 ≤ v ∧ v ≤ max 1 (1/2 : ℚ) := by
  refine ⟨by norm_num, by norm_num, ?_⟩
  have h := C1_envelope_range (Envelope.mk 1 1 (1/2) 1) 2 0 none
    (by norm_num) (by norm_num) (by norm_num) (by norm_num)
  simpa using h

/-- Claim C2: with a zero-length ramp duration, `Envelope::sample` divides
`0.0/0.0` inside its `lt!` macro and returns NaN (modelled `none`) instead
of jumping to the ramp's end value: with `release_decay_time = 0` during
release, with `attack_time = 0` while held, and with `release_time = 0`
while held. -/
theorem C2_zero_ramp_nan :
    (Envelope.mk 1 1 (1/2) 0).sample 3 0 (some 2) = none ∧
    (Envelope.mk 0 1 (1/2) 1).sample 1 0 none = none ∧
    (Envelope.mk 1 0 (1/2) 1).sample 1 0 none = none := by
  refine ⟨?_, ?_, ?_⟩ <;> decide

/-- Claim C3: the concrete envelope `Envelope(1.0, 1.0, 0.5, 1.0)` takes the
six values listed in the repository's own `test_envelope`; every step of the
computation is exact in f32, so the rational model reproduces them exactly. -/
theorem C3_test_values :
    ((Envelope.mk 1 1 (1/2) 1).sample (-100) 0 none = some 0) ∧
    ((Envelope.mk 1 1 (1/2) 1).sample 0 0 none = some 0) ∧
    ((Envelope.mk 1 1 (1/2) 1).sample 1 0 none = some 1) ∧
    ((Envelope.mk 1 1 (1/2) 1).sample 2 0 none = some (1/2)) ∧
    ((Envelope.mk 1 1 (1/2) 1).sample 100 0 none = some (1/2)) ∧
    ((Envelope.mk 1 1 (1/2) 1).sample 3 0 (some 2) = some 0) := by
  refine ⟨?_, ?_, ?_, ?_, ?_, ?_⟩ <;>
    norm_num [Envelope.sample, lerp, ltFrac, fclamp, fdiv, fadd, fmul, fsub,
      max_def, min_def]

/-- Truncation of a real-valued f32 toward zero, as in Rust `t as i32`
and the truncated remainder of `%` on f32. -/
def ratTrunc (q : ℚ) : ℤ := if 0 ≤ q then ⌊q⌋ else ⌈q⌉

/-- Rust `t as i32`: truncation toward zero, saturating at the i32 bounds. -/
def i32cast (q : ℚ) : ℤ := max (-(2^31)) (min (2^31 - 1) (ratTrunc q))

/-- Rust `%` on f32 (remainder with the sign of the dividend) for a nonzero
divisor. -/
def f32rem (a b : ℚ) : ℚ := a - b * (ratTrunc (a / b) : ℚ)

/-- The closed family of wave generators of src/audio/waves.rs: the six
stateless leaves, the stateful uniform-random leaf, and the nested
`LinearTransform` composite (which implements `WaveGenerator` itself). -/
inductive WaveGen where
  | nullW
  | identityW
  | constantW
  | sinW
  | squareW
  | triW
  | randomW
  | linearT (alpha beta : WaveGen)
deriving DecidableEq

/-- Model of `WaveGenerator::gen`.  The transcendental f32 sine of `SinWave`
(`(t * FRAC_PI_2).sin()`) is abstracted as the function parameter `sinFn`,
and the `ThreadRng` state of `RandomWave` as an explicit stream of pending
draws, threaded through every call as the source's `&mut self` does. -/
def WaveGen.gen (sinFn : ℚ → ℚ) : WaveGen → ℚ → List ℚ → ℚ × List ℚ
  | .nullW, _, rng => (0, rng)
  | .identityW, _, rng => (1, rng)
  | .constantW, t, rng => (t, rng)
  | .sinW, t, rng => (sinFn t, rng)
  | .squareW, t, rng => (if (i32cast t).tmod 2 = 0 then 1 else -1, rng)
  | .triW, t, rng => (f32rem t 2 - 1, rng)
  | .randomW, _, rng => (rng.headD 0, rng.tail)
  | .linearT a b, t, rng =>
      let (av, rng1) := a.gen sinFn t rng
      let (bv, rng2) := b.gen sinFn t rng1
      (av * t + bv, rng2)

/-- Deterministic generators: those containing no `RandomWave` leaf. -/
def WaveGen.det : WaveGen → Bool
  | .randomW => false
  | .linearT a b => a.det && b.det
  | _ => true

/-- Pure reading of `WaveGenerator::gen` used by the spec's mixing formula,
which treats the oscillator as a function of its inputs.  The random leaf is
given the arbitrary value 0 here; every theorem that uses this definition
restricts to deterministic generators, where the case is unreachable. -/
def WaveGen.genP (sinFn : ℚ → ℚ) : WaveGen → ℚ → ℚ
  | .nullW, _ => 0
  | .identityW, _ => 1
  | .constantW, t => t
  | .sinW, t => sinFn t
  | .squareW, t => if (i32cast t).tmod 2 = 0 then 1 else -1
  | .triW, t => f32rem t 2 - 1
  | .randomW, _ => 0
  | .linearT a b, t => a.genP sinFn t * t + b.genP sinFn t

lemma WaveGen.gen_of_det (sinFn : ℚ → ℚ) (w : WaveGen) (hw : w.det = true)
    (t : ℚ) (rng : List ℚ) : w.gen sinFn t rng = (w.genP sinFn t, rng) := by
  induction w generalizing rng with
  | nullW => rfl
  | identityW => rfl
  | constantW => rfl
  | sinW => rfl
  | squareW => rfl
  | triW => rfl
  | randomW => simp [WaveGen.det] at hw
  | linearT a b iha ihb =>
      rw [WaveGen.det, Bool.and_eq_true] at hw
      simp [WaveGen.gen, WaveGen.genP, iha hw.1, ihb hw.2]

/-- Model of `struct LinearTransform { alpha, beta }`. -/
structure LinearTransform where
  alpha : WaveGen
  beta : WaveGen
deriving DecidableEq

/-- Model of `LinearTransform::gen`: `alpha.gen(t)*t + beta.gen(t)`,
identical to the `linearT` case of `WaveGen.gen`. -/
def LinearTransform.gen (sinFn : ℚ → ℚ) (lt : LinearTransform) (t : ℚ)
    (rng : List ℚ) : ℚ × List ℚ :=
  WaveGen.gen sinFn (.linearT lt.alpha lt.beta) t rng

/-- Model of `LinearTransform::default()`: `alpha = IdentityWave`,
`beta = NullWave`. -/
def LinearTransform.defaultLT : LinearTransform := ⟨.identityW, .nullW⟩

/-- Model of `struct Oscillator { ttf, wtf, otf }`. -/
structure Oscillator where
  ttf : LinearTransform
  wtf : LinearTransform
  otf : WaveGen
deriving DecidableEq

/-- Model of `Oscillator::gen`: `otf.gen(ttf.gen(t) * wtf.gen(freq))`,
evaluating the time transform first, then the frequency transform, as the
source expression does. -/
def Oscillator.gen (sinFn : ℚ → ℚ) (o : Oscillator) (t freq : ℚ)
    (rng : List ℚ) : ℚ × List ℚ :=
  let (tv, r1) := o.ttf.gen sinFn t rng
  let (fv, r2) := o.wtf.gen sinFn freq r1
  WaveGen.gen sinFn o.otf (tv * fv) r2

/-- An oscillator is deterministic when all three of its parts are. -/
def Oscillator.det (o : Oscillator) : Bool :=
  (WaveGen.linearT o.ttf.alpha o.ttf.beta).det &&
  (WaveGen.linearT o.wtf.alpha o.wtf.beta).det && o.otf.det

/-- Pure reading of `Oscillator::gen` for deterministic oscillators. -/
def Oscillator.genP (sinFn : ℚ → ℚ) (o : Oscillator) (t freq : ℚ) : ℚ :=
  WaveGen.genP sinFn o.otf
    ((WaveGen.linearT o.ttf.alpha o.ttf.beta).genP sinFn t *
     (WaveGen.linearT o.wtf.alpha o.wtf.beta).genP sinFn freq)

lemma Oscillator.osc_gen_of_det (sinFn : ℚ → ℚ) (o : Oscillator)
    (ho : o.det = true) (t freq : ℚ) (rng : List ℚ) :
    o.gen sinFn t freq rng = (o.genP sinFn t freq, rng) := by
  rw [Oscillator.det, Bool.and_eq_true, Bool.and_eq_true] at ho
  simp [Oscillator.gen, Oscillator.genP, LinearTransform.gen,
    WaveGen.gen_of_det sinFn _ ho.1.1, WaveGen.gen_of_det sinFn _ ho.1.2,
    WaveGen.gen_of_det sinFn _ ho.2]

/-- Model of `rng.gen_range(1..7)`: the rand crate's `gen_range(low..high)`
returns a value uniformly distributed in `[low, high)`, so for a uniformly
random draw `s` this is uniform over `{1, ..., 6}`. -/
def gen_range_1_7 (s : ℕ) : ℕ := 1 + s % 6

/-- Model of `random_wave_generator()` (src/audio/waves.rs lines 30-52) with
the random draw explicit.  The `index == 0` branch of the source builds a
`LinearTransform::default()` and randomizes it; since `gen_range(1..7)`
never returns 0 that branch is unreachable, and its recursive randomization
is not modelled (the un-randomized default transform stands in for it). -/
def random_wave_generator (s : ℕ) : WaveGen :=
  let index := gen_range_1_7 s
  if index = 0 then .linearT LinearTransform.defaultLT.alpha LinearTransform.defaultLT.beta
  else if index = 1 then .identityW
  else if index = 2 then .constantW
  else if index = 3 then .sinW
  else if index = 4 then .squareW
  else if index = 5 then .triW
  else .randomW

/-- Model of `LinearTransform::randomize`: both components are replaced by
independently drawn generators (each call to `random_wave_generator`
consumes its own draw). -/
def LinearTransform.randomize (s1 s2 : ℕ) : LinearTransform :=
  ⟨random_wave_generator s1, random_wave_generator s2⟩

/-- Model of `Oscillator::randomize`: both transforms and the terminal
generator are replaced from five independent draws. -/
def Oscillator.randomize (s1 s2 s3 s4 s5 : ℕ) : Oscillator :=
  ⟨LinearTransform.randomize s1 s2, LinearTransform.randomize s3 s4,
   random_wave_generator s5⟩

/-- The generator palette that `random_wave_generator` actually reaches,
indexed by `(index - 1)` for `index` in `1..7`. -/
def generator_palette : List WaveGen :=
  [.identityW, .constantW, .sinW, .squareW, .triW, .randomW]

/-- Test for the nested-transform variant. -/
def WaveGen.isLinearT : WaveGen → Bool
  | .linearT _ _ => true
  | _ => false

/-- Claim C6 (counterexample): no possible draw makes
`random_wave_generator` return a nested `LinearTransform`; the
`index == 0` branch is dead because `gen_range(1..7)` yields `1..=6`. -/
theorem C6_counterexample :
    (∃ s : ℕ, (random_wave_generator s).isLinearT = true) = False := by
  apply eq_false
  rintro ⟨s, hs⟩
  have h6 : s % 6 < 6 := Nat.mod_lt _ (by norm_num)
  rw [random_wave_generator, gen_range_1_7] at hs
  set m := s % 6 with hm
  interval_cases m <;> simp [WaveGen.isLinearT] at hs

/-- Claim C6 (amended): each draw selects uniformly from the fixed
six-element palette Identity, Constant, Sine, Square, Triangle,
UniformRandom — the drawn index determines the variant through the palette
position `s % 6`, so a uniform draw gives each palette entry probability
1/6 and a nested `LinearTransform` is never produced. -/
theorem C6_palette (s : ℕ) :
    random_wave_generator s = generator_palette.getD (s % 6) .nullW := by
  have h6 : s % 6 < 6 := Nat.mod_lt _ (by norm_num)
  rw [random_wave_generator, gen_range_1_7]
  set m := s % 6 with hm
  interval_cases m <;> rfl

/-- The oscillator built with `LinearTransform::default()` time and
frequency transforms (both the identity mapping `1*t + 0`) and a `SinWave`
terminal — the configuration of the repository's `test_simple_sin_wave`
and of `Instrument::new()`. -/
def oscIdSin : Oscillator :=
  ⟨LinearTransform.defaultLT, LinearTransform.defaultLT, .sinW⟩

/-- Claim C5 (counterexample): the identity-transform sine oscillator does
not agree with the bare sine generator at every `(t, freq)` pair — at
`t = 1`, `freq = 2` (instantiating the abstracted sine at the identity
function) the two sides differ by 1, far beyond the 1e-6 tolerance. -/
theorem C5_counterexample :
    (1/1000000 : ℚ) ≤
      |(oscIdSin.gen (fun x => x) 1 2 []).1 -
       (WaveGen.sinW.gen (fun x => x) 1 []).1| := by
  norm_num [oscIdSin, Oscillator.gen, LinearTransform.gen, WaveGen.gen,
    LinearTransform.defaultLT]

/-- Claim C5 (amended): for every sine model, the oscillator with
all-identity transforms and a sine terminal equals the bare sine generator
applied to `t * freq` (hence to `t` exactly when `freq = 1`, which is the
case the repository's test samples). -/
theorem C5_identity_sine (sinFn : ℚ → ℚ) (t freq : ℚ) (rng : List ℚ) :
    oscIdSin.gen sinFn t freq rng = (sinFn (t * freq), rng) := by
  simp [oscIdSin, Oscillator.gen, LinearTransform.gen, WaveGen.gen,
    LinearTransform.defaultLT]

/-- Claim C10: `IdentityWave::gen` returns the constant `1.0` whatever its
input, and `ConstantWave::gen` returns its input unchanged — the names are
swapped relative to the usual meaning. -/
theorem C10_identity_constant (sinFn : ℚ → ℚ) (x : ℚ) (rng : List ℚ) :
    WaveGen.identityW.gen sinFn x rng = (1, rng) ∧
    WaveGen.constantW.gen sinFn x rng = (x, rng) :=
  ⟨rfl, rfl⟩

/-- Model of `KeyboardBufferEvent` (src/input.rs lines 43-48); key codes
are modelled as naturals. -/
structure KeyboardBufferEvent where
  key : ℕ
  time_press : ℚ
  time_release : Option ℚ
deriving DecidableEq

/-- Model of the `HashMap<KeyCode, KeyboardBufferEvent>` inside
`KeyboardBuffer`: an association list with at most one entry per key
(iteration order stands in for the map's unspecified order). -/
abbrev KeyboardBuffer := List (ℕ × KeyboardBufferEvent)

/-- The two `KeyEventKind`s the handler distinguishes. -/
inductive KeyEventKind where
  | press
  | release
deriving DecidableEq

/-- In-place update of the (at most one) entry with the given key, as
`HashMap::get_mut` followed by a field assignment does; no entry with the
key means no change. -/
def updateFirst : KeyboardBuffer → ℕ → (KeyboardBufferEvent → KeyboardBufferEvent) → KeyboardBuffer
  | [], _, _ => []
  | p :: rest, code, f =>
      if p.1 = code then (p.1, f p.2) :: rest else p :: updateFirst rest code f

/-- Model of `KeyboardBuffer::handle_key_event` (src/input.rs lines 72-88):
a press runs `entry(code).or_insert(event with time_release = None)`; a
release sets `time_release = Some(timestamp)` on the stored entry if one
exists. -/
def handle_key_event (buf : KeyboardBuffer) (code : ℕ) (kind : KeyEventKind)
    (timestamp : ℚ) : KeyboardBuffer :=
  match kind with
  | .press =>
      match List.lookup code buf with
      | some _ => buf
      | none => buf ++ [(code, ⟨code, timestamp, none⟩)]
  | .release =>
      updateFirst buf code fun ev => { ev with time_release := some timestamp }

/-- Model of `KeyboardBuffer::clean_stale_events` (src/input.rs lines
57-64): retain events that are unreleased, or released less than
`stale_time_limit` (default 2.0) seconds before `now`. -/
def clean_stale_events (buf : KeyboardBuffer) (now : ℚ)
    (stale_time_limit : Option ℚ) : KeyboardBuffer :=
  buf.filter fun p =>
    match p.2.time_release with
    | some t => decide (now - t < stale_time_limit.getD 2)
    | none => true

lemma lookup_updateFirst_self (l : KeyboardBuffer) (code : ℕ)
    (f : KeyboardBufferEvent → KeyboardBufferEvent) :
    List.lookup code (updateFirst l code f) = (List.lookup code l).map f := by
  induction l with
  | nil => rfl
  | cons p rest ih =>
      by_cases h : p.1 = code
      · simp [updateFirst, h, List.lookup]
      · have h' : (code == p.1) = false := by
          simp [beq_iff_eq]
          exact fun he => h he.symm
        simp [updateFirst, h, List.lookup, h', ih]

lemma updateFirst_of_lookup_none (l : KeyboardBuffer) (code : ℕ)
    (f : KeyboardBufferEvent → KeyboardBufferEvent)
    (h : List.lookup code l = none) : updateFirst l code f = l := by
  induction l with
  | nil => rfl
  | cons p rest ih =>
      rw [List.lookup] at h
      by_cases hk : code = p.1
      · simp [hk] at h
      · have h' : (code == p.1) = false := by simp [beq_iff_eq, hk]
        rw [h'] at h
        simp only [updateFirst]
        rw [if_neg (fun he => hk he.symm), ih h]

/-- Claim C7 (counterexample): after press(key 5, t=0) then release(t=1),
the stored `time_release` is `Some 1`; a second release at t=2 overwrites
it to `Some 2`, so the field is not set exactly once. -/
theorem C7_counterexample :
    List.lookup 5 (handle_key_event (handle_key_event
        (handle_key_event [] 5 .press 0) 5 .release 1) 5 .release 2) =
      some ⟨5, 0, some 2⟩ ∧
    List.lookup 5 (handle_key_event
        (handle_key_event [] 5 .press 0) 5 .release 1) =
      some ⟨5, 0, some 1⟩ := by
  constructor <;> rfl

/-- Claim C7 (amended): every release event for a key with a stored entry
overwrites `time_release` with its own timestamp (so the field holds the
most recent release time, not the first), while press events never change
the stored entry. -/
theorem C7_release_overwrites (buf : KeyboardBuffer) (k : ℕ)
    (ev : KeyboardBufferEvent) (t' : ℚ)
    (h : List.lookup k buf = some ev) :
    List.lookup k (handle_key_event buf k .release t') =
      some { ev with time_release := some t' } ∧
    ∀ tp, List.lookup k (handle_key_event buf k .press tp) = some ev := by
  constructor
  · rw [handle_key_event, lookup_updateFirst_self, h]
    rfl
  · intro tp
    rw [handle_key_event]
    rw [h]
    exact h

/-- Witness for `C7_release_overwrites`: a key released at t=1 and released
again at t=2 ends with `time_release = Some 2`. -/
theorem C7_release_overwrites_witness :
    List.lookup 5 [(5, KeyboardBufferEvent.mk 5 0 (some 1))] =
      some (KeyboardBufferEvent.mk 5 0 (some 1)) ∧
    List.lookup 5 (handle_key_event [(5, KeyboardBufferEvent.mk 5 0 (some 1))]
        5 .release 2) = some (KeyboardBufferEvent.mk 5 0 (some 2)) := by
  refine ⟨rfl, ?_⟩
  exact (C7_release_overwrites [(5, KeyboardBufferEvent.mk 5 0 (some 1))]
    5 (KeyboardBufferEvent.mk 5 0 (some 1)) 2 rfl).1

/-- Claim C8: a press for a key that already has a stored event leaves the
buffer (hence the stored event and its `time_press`) unchanged, and a
release for a key with no stored event leaves the buffer unchanged. -/
theorem C8_press_release_noop (buf : KeyboardBuffer) (k : ℕ) (ts : ℚ) :
    ((List.lookup k buf).isSome = true → handle_key_event buf k .press ts = buf) ∧
    (List.lookup k buf = none → handle_key_event buf k .release ts = buf) := by
  constructor
  · intro h
    rw [handle_key_event]
    obtain ⟨ev, hev⟩ := Option.isSome_iff_exists.mp h
    rw [hev]
  · intro h
    rw [handle_key_event]
    exact updateFirst_of_lookup_none buf k _ h

/-- Witness for `C8_press_release_noop`: a held key 3 pressed again, and an
absent key 7 released, both leave the buffer unchanged. -/
theorem C8_press_release_noop_witness :
    ((List.lookup 3 [(3, KeyboardBufferEvent.mk 3 0 none)]).isSome = true ∧
      handle_key_event [(3, KeyboardBufferEvent.mk 3 0 none)] 3 .press 5 =
        [(3, KeyboardBufferEvent.mk 3 0 none)]) ∧
    (List.lookup 7 [(3, KeyboardBufferEvent.mk 3 0 none)] = none ∧
      handle_key_event [(3, KeyboardBufferEvent.mk 3 0 none)] 7 .release 5 =
        [(3, KeyboardBufferEvent.mk 3 0 none)]) := by
  refine ⟨⟨rfl, ?_⟩, ⟨rfl, ?_⟩⟩
  · exact (C8_press_release_noop [(3, KeyboardBufferEvent.mk 3 0 none)] 3 5).1 rfl
  · exact (C8_press_release_noop [(3, KeyboardBufferEvent.mk 3 0 none)] 7 5).2 rfl

/-- Model of `struct Instrument` (src/audio/instrument.rs lines 49-58).
The sample rate is the `u32` inside `cpal::SampleRate`; the cursor is the
`u128` sample counter; the pitch table is the fixed `key_to_freq` map as an
association list.  The wall clock (`clock.elapsed()`) becomes the explicit
`now` argument of `gen`, and the unused `freq` field is omitted. -/
structure Instrument where
  sr : ℕ
  cursor : ℕ
  oscillator : Oscillator
  keyboard_buffer : KeyboardBuffer
  envelope : Envelope
  key_to_freq : List (ℕ × ℚ)

/-- Model of `Instrument::t`: `((cursor + i) as f32) / (sample_rate as f32)`
with exact integer-to-rational conversion.  The source's conversion rounds
huge u128 values to f32 and gives a non-finite result when the sample rate
is 0; every theorem below assumes the sample rate has been set (positive),
the regime the spec's formula addresses. -/
def Instrument.t (ins : Instrument) (i : ℕ) : ℚ :=
  ((ins.cursor + i : ℕ) : ℚ) / (ins.sr : ℚ)

/-- Model of `Instrument::gen` (src/audio/instrument.rs lines 105-115):
iterate over the keyboard buffer, look up each key's frequency (0.0 when
absent), sample the envelope at `now`, and sum
`oscillator.gen(t, freq) * env`, threading the oscillator's random state
through the iteration as its `&mut self` does. -/
def Instrument.gen (sinFn : ℚ → ℚ) (ins : Instrument) (i : ℕ) (now : ℚ)
    (rng : List ℚ) : F × List ℚ :=
  ins.keyboard_buffer.foldl
    (fun acc kv =>
      let freq := (List.lookup kv.1 ins.key_to_freq).getD 0
      let env := ins.envelope.sample now kv.2.time_press kv.2.time_release
      let p := Oscillator.gen sinFn ins.oscillator (ins.t i) freq acc.2
      (fadd acc.1 (fmul (some p.1) env), p.2))
    (some 0, rng)

lemma foldl_gen_det (sinFn : ℚ → ℚ) (osc : Oscillator) (hdet : osc.det = true)
    (t : ℚ) (fr : ℕ × KeyboardBufferEvent → ℚ)
    (env : ℕ × KeyboardBufferEvent → F) :
    ∀ (l : List (ℕ × KeyboardBufferEvent)) (a : F) (rng : List ℚ),
      (l.foldl (fun acc kv =>
          let p := Oscillator.gen sinFn osc t (fr kv) acc.2
          (fadd acc.1 (fmul (some p.1) (env kv)), p.2)) (a, rng)).1 =
      l.foldl (fun s kv =>
          fadd s (fmul (some (Oscillator.genP sinFn osc t (fr kv))) (env kv))) a := by
  intro l
  induction l with
  | nil => intro a rng; rfl
  | cons kv rest ih =>
      intro a rng
      have h1 : Oscillator.gen sinFn osc t (fr kv) rng =
          (Oscillator.genP sinFn osc t (fr kv), rng) :=
        Oscillator.osc_gen_of_det sinFn osc hdet _ _ rng
      simp only [List.foldl_cons, h1]
      exact ih _ rng

/-- Claim C4: with the sample rate set and a deterministic oscillator (the
spec's formula reads `oscillator.gen` as a function of its inputs), the
i-th sample is the plain sum over all buffered events of
`oscillator.gen((cursor + i)/sample_rate, pitch_table(key) or 0) * envelope.sample(now, press, release)`,
with no normalization by the number of sounding notes. -/
theorem C4_gen_is_mix_sum (sinFn : ℚ → ℚ) (ins : Instrument) (i : ℕ)
    (now : ℚ) (rng : List ℚ) (_hsr : 0 < ins.sr)
    (hdet : ins.oscillator.det = true) :
    (ins.gen sinFn i now rng).1 =
      (ins.keyboard_buffer.map (fun kv =>
        fmul (some (Oscillator.genP sinFn ins.oscillator
            (((ins.cursor + i : ℕ) : ℚ) / (ins.sr : ℚ))
            ((List.lookup kv.1 ins.key_to_freq).getD 0)))
          (ins.envelope.sample now kv.2.time_press kv.2.time_release))).foldl
        fadd (some 0) := by
  rw [List.foldl_map]
  rw [Instrument.gen]
  exact foldl_gen_det sinFn ins.oscillator hdet (ins.t i)
    (fun kv => (List.lookup kv.1 ins.key_to_freq).getD 0)
    (fun kv => ins.envelope.sample now kv.2.time_press kv.2.time_release)
    ins.keyboard_buffer (some 0) rng

/-- Witness for `C4_gen_is_mix_sum`: a concrete instrument (sample rate 2,
cursor 4, the default sine oscillator, one held key 3 mapped to 10 Hz). -/
theorem C4_gen_is_mix_sum_witness :
    0 < (2:ℕ) ∧ oscIdSin.det = true ∧
    ((Instrument.mk 2 4 oscIdSin [(3, KeyboardBufferEvent.mk 3 0 none)]
        (Envelope.mk 1 1 (1/2) 1) [(3, 10)]).gen (fun x => x) 0 1 []).1 =
      (([(3, KeyboardBufferEvent.mk 3 0 none)] :
          List (ℕ × KeyboardBufferEvent)).map (fun kv =>
        fmul (some (Oscillator.genP (fun x => x) oscIdSin
            (((4 + 0 : ℕ) : ℚ) / ((2:ℕ) : ℚ))
            ((List.lookup kv.1 [((3:ℕ), (10:ℚ))]).getD 0)))
          ((Envelope.mk 1 1 (1/2) 1).sample 1 kv.2.time_press
            kv.2.time_release))).foldl fadd (some 0) := by
  refine ⟨by norm_num, rfl, ?_⟩
  exact C4_gen_is_mix_sum (fun x => x)
    (Instrument.mk 2 4 oscIdSin [(3, KeyboardBufferEvent.mk 3 0 none)]
      (Envelope.mk 1 1 (1/2) 1) [(3, 10)]) 0 1 [] (by norm_num) rfl

/-- Model of `Instrument::advance_cursor` (src/audio/instrument.rs line
97): `cursor = (cursor + n) % u128::MAX`, where the `u128` addition itself
wraps at `2^128` (release-build semantics) before the explicit reduction
modulo `u128::MAX = 2^128 - 1`. -/
def advance_cursor (c n : ℕ) : ℕ := ((c + n) % 2 ^ 128) % (2 ^ 128 - 1)

/-- Cursor after a sequence of `advance_cursor` calls starting from 0. -/
def run_cursor (ns : List ℕ) : ℕ := ns.foldl advance_cursor 0

/-- Claim C9 (counterexample): advancing by 1 and then by `u128::MAX`
leaves the cursor at 0, while `(1 + u128::MAX) mod u128::MAX = 1`: the
wrapping `u128` addition at `2^128` makes the result differ from reduction
of the plain sum modulo the maximum representable value. -/
theorem C9_counterexample :
    run_cursor [1, 2 ^ 128 - 1] = 0 ∧
    ([1, 2 ^ 128 - 1] : List ℕ).sum % (2 ^ 128 - 1) = 1 := by
  constructor <;> decide

/-- Claim C9 (amended): as long as no call overflows the `u128` addition
(the running cursor plus the increment stays below `2^128`), the cursor
after the calls `n_1 .. n_k` equals `(n_1 + ... + n_k) mod (2^128 - 1)`. -/
theorem C9_cursor_sum (ns : List ℕ)
    (h : ∀ j, j < ns.length →
      (ns.take j).sum % (2 ^ 128 - 1) + ns.getD j 0 < 2 ^ 128) :
    run_cursor ns = ns.sum % (2 ^ 128 - 1) := by
  induction ns using List.reverseRecOn with
  | nil => simp [run_cursor]
  | append_singleton l a ih =>
      have hpre : ∀ j, j < l.length →
          (l.take j).sum % (2 ^ 128 - 1) + l.getD j 0 < 2 ^ 128 := by
        intro j hj
        have h' := h j (by simp; omega)
        rwa [List.take_append_of_le_length hj.le,
          List.getD_append _ _ _ _ hj] at h'
      have hlast := h l.length (by simp)
      rw [List.take_left, List.getD_append_right _ _ _ _ le_rfl,
        Nat.sub_self] at hlast
      have hlast' : l.sum % (2 ^ 128 - 1) + a < 2 ^ 128 := by
        simpa using hlast
      have hrc : run_cursor (l ++ [a]) = advance_cursor (run_cursor l) a := by
        simp [run_cursor, List.foldl_append]
      rw [hrc, ih hpre, advance_cursor, Nat.mod_eq_of_lt hlast',
        Nat.mod_add_mod]
      simp

/-- Witness for `C9_cursor_sum` at the call sequence `[3, 4]`. -/
theorem C9_cursor_sum_witness :
    (∀ j, j < ([3, 4] : List ℕ).length →
      (([3, 4] : List ℕ).take j).sum % (2 ^ 128 - 1) +
        ([3, 4] : List ℕ).getD j 0 < 2 ^ 128) ∧
    run_cursor [3, 4] = ([3, 4] : List ℕ).sum % (2 ^ 128 - 1) := by
  constructor
  · decide
  · exact C9_cursor_sum [3, 4] (by decide)

end RSynth
